import Mathlib

/-!
Verification of the scrap-rs interactive note application.

This file gives a shallow embedding, in Lean 4, of the core data model and
operations of the scrap-rs repository (src/tui/mod.rs, src/tui/events.rs,
src/tui/markdown.rs, src/db.rs, src/utils.rs, src/commands/{open,append,write}.rs)
and proves the specification claims C1..C10 about them.

Rust strings are modelled as Lean `String` (a list of characters); Rust
`char::to_lowercase`, `char::is_whitespace` and `char::is_alphanumeric` are
modelled by their ASCII restrictions (`Char.toLower`, `Char.isWhitespace`,
`Char.isAlphanum`); Rust `str::len` (UTF-8 byte length) is modelled by summing
`Char.utf8Size`, which is the UTF-8 encoded size of each character.
String emptiness tests are modelled on the character list (`.data.isEmpty`),
which agrees with Rust `str::is_empty`.
-/

namespace Scrap

/-- Lowercase a string character by character, modelling Rust
`str::to_lowercase` (ASCII fragment). -/
def lowerStr (s : String) : String :=
  String.mk (s.data.map Char.toLower)

/-- Decide whether the list `p` is an initial segment of `l`, modelling Rust
`str::starts_with`. -/
def startsWithL : List Char → List Char → Bool
  | [], _ => true
  | _ :: _, [] => false
  | a :: as, b :: bs => a == b && startsWithL as bs

/-- Decide whether `needle` occurs contiguously inside `hay`, modelling Rust
`str::contains` (substring search). -/
def hasSubstr : List Char → List Char → Bool
  | n, [] => n.isEmpty
  | n, c :: t => startsWithL n (c :: t) || hasSubstr n t

/-- Accumulator-style worker for `splitWs`: `acc` holds the characters of the
current word in reverse. -/
def splitWsAux : List Char → List Char → List String
  | [], acc => if acc.isEmpty then [] else [String.mk acc.reverse]
  | c :: cs, acc =>
    if c.isWhitespace then
      if acc.isEmpty then splitWsAux cs [] else String.mk acc.reverse :: splitWsAux cs []
    else splitWsAux cs (c :: acc)

/-- Split a string on runs of whitespace, dropping empty pieces, modelling Rust
`str::split_whitespace`. -/
def splitWs (s : String) : List String :=
  splitWsAux s.data []

/-- A note row as loaded into the TUI session, from `NoteEntry` in src/db.rs
(the dead `updated_at` column is dropped: no claim mentions it). -/
structure NoteEntry where
  id : Int
  title : String
  note : String
  tags : List String
deriving Repr, DecidableEq, Inhabited

/-- The tag-filter conjunct of the filter predicate in `App::apply_filter`
(src/tui/mod.rs lines 143-148): the note must carry at least one active tag,
membership decided by exact string equality; an empty active set passes
everything. -/
def tagFilterOk (activeTagFilters : List String) (note : NoteEntry) : Bool :=
  if !activeTagFilters.isEmpty then
    note.tags.any (fun t => activeTagFilters.contains t)
  else
    true

/-- The search-query conjunct of the filter predicate in `App::apply_filter`
(src/tui/mod.rs lines 149-156); `query` is the already-lowercased query. -/
def queryOk (query : String) (note : NoteEntry) : Bool :=
  if query.data.isEmpty then
    true
  else
    hasSubstr query.data (lowerStr note.title).data
      || hasSubstr query.data (lowerStr note.note).data
      || note.tags.any (fun t => hasSubstr query.data (lowerStr t).data)

/-- The filtered index list computed by `App::apply_filter`
(src/tui/mod.rs lines 136-159): lowercase the query once, then
enumerate-filter-map over the note snapshot. -/
def applyFilterIndices (notes : List NoteEntry) (searchQuery : String)
    (activeTagFilters : List String) : List Nat :=
  let query := lowerStr searchQuery
  ((notes.enum.filter
      (fun p => tagFilterOk activeTagFilters p.2 && queryOk query p.2)).map Prod.fst)

/-- The filter predicate exactly as the specification words it: (active tag
filters empty OR the note has at least one tag that is a member of the
active-tag set, by exact string equality) AND (query empty OR the lowercased
query is a substring of the lowercased title, the lowercased body, or some
lowercased tag). -/
def specNoteMatches (searchQuery : String) (activeTagFilters : List String)
    (note : NoteEntry) : Bool :=
  (activeTagFilters.isEmpty
      || note.tags.any (fun t => activeTagFilters.contains t))
    && (searchQuery.data.isEmpty
      || hasSubstr (lowerStr searchQuery).data (lowerStr note.title).data
      || hasSubstr (lowerStr searchQuery).data (lowerStr note.note).data
      || note.tags.any (fun t => hasSubstr (lowerStr searchQuery).data (lowerStr t).data))

theorem lowerStr_data_isEmpty (s : String) :
    (lowerStr s).data.isEmpty = s.data.isEmpty := by
  cases s with
  | mk data => cases data <;> simp [lowerStr]

theorem enum_filter_map_eq (p : NoteEntry → Bool) :
    ∀ (l : List NoteEntry) (s : Nat),
      ((List.enumFrom s l).filter (fun x => p x.2)).map Prod.fst
        = ((List.range l.length).filter (fun i => (l[i]?.any p))).map (fun i => i + s) := by
  intro l
  induction l with
  | nil => intro s; simp
  | cons a t ih =>
    intro s
    have hcomp : ((fun i => i + s) ∘ Nat.succ) = fun i => i + (s + 1) := by
      funext i
      show i + 1 + s = i + (s + 1)
      omega
    have hcomp2 : ((fun i => ((a :: t)[i]?.any p)) ∘ Nat.succ)
        = fun i => (t[i]?.any p) := by
      funext i
      simp [Function.comp]
    by_cases hpa : p a = true
    · have h0 : ((a :: t)[0]?.any p) = true := by simp [hpa]
      simp only [List.enumFrom, List.length_cons, List.range_succ_eq_map,
        List.filter_cons, List.filter_map, List.map_cons, List.map_map, h0, hpa,
        if_true]
      rw [hcomp2, hcomp, ih (s + 1)]
      simp
    · have h0 : ((a :: t)[0]?.any p) = false := by simp [hpa]
      simp only [List.enumFrom, List.length_cons, List.range_succ_eq_map,
        List.filter_cons, List.filter_map, List.map_cons, List.map_map, h0, hpa,
        Bool.false_eq_true, if_false]
      rw [hcomp2, hcomp, ih (s + 1)]

theorem applyFilterIndices_eq_range_filter
    (notes : List NoteEntry) (q : String) (tf : List String) :
    applyFilterIndices notes q tf
      = (List.range notes.length).filter
          (fun i => notes[i]?.any (specNoteMatches q tf)) := by
  have h1 : applyFilterIndices notes q tf
      = ((List.enumFrom 0 notes).filter
          (fun x => (fun n => tagFilterOk tf n && queryOk (lowerStr q) n) x.2)).map Prod.fst := rfl
  have h2 := enum_filter_map_eq (fun n => tagFilterOk tf n && queryOk (lowerStr q) n) notes 0
  rw [h1, h2]
  have hpred : (fun n => tagFilterOk tf n && queryOk (lowerStr q) n)
      = specNoteMatches q tf := by
    funext n
    unfold tagFilterOk queryOk specNoteMatches
    rw [lowerStr_data_isEmpty]
    cases htf : tf.isEmpty <;> cases hq : q.data.isEmpty <;>
      simp [htf, hq, Bool.or_assoc]
  rw [hpred]
  simp

/-- C1: `apply_filter` produces exactly the indices, in increasing order, of
the notes satisfying the spec predicate ((tag filters empty OR some tag is an
exact member of the active set) AND (query empty OR the lowercased query is a
substring of the lowercased title, body, or some lowercased tag)); with empty
query and empty tag-filter set it is the identity ordering of indices. -/
theorem apply_filter_spec (notes : List NoteEntry) (q : String) (tf : List String) :
    applyFilterIndices notes q tf
        = (List.range notes.length).filter
            (fun i => notes[i]?.any (specNoteMatches q tf))
      ∧ List.Pairwise (fun i j => i < j) (applyFilterIndices notes q tf)
      ∧ applyFilterIndices notes "" [] = List.range notes.length := by
  refine ⟨applyFilterIndices_eq_range_filter notes q tf, ?_, ?_⟩
  · rw [applyFilterIndices_eq_range_filter]
    exact List.Pairwise.sublist (List.filter_sublist _) (List.pairwise_lt_range _)
  · rw [applyFilterIndices_eq_range_filter]
    apply List.filter_eq_self.mpr
    intro i hi
    rw [List.mem_range] at hi
    rw [List.getElem?_eq_getElem hi]
    show specNoteMatches "" [] (notes.get ⟨i, hi⟩) = true
    unfold specNoteMatches
    simp

/-! ## Selection-cursor state machine (C4) -/

/-- The session fields involved in the selection-cursor invariant: the note
snapshot, the query, the active tag filters, the filtered index list and the
cursor, from `App` in src/tui/mod.rs. -/
structure SelState where
  notes : List NoteEntry
  searchQuery : String
  activeTagFilters : List String
  filteredNotes : List Nat
  selected : Nat
deriving Repr

/-- `App::apply_filter` (src/tui/mod.rs lines 136-161) acting on the selection
state: recompute the filtered index list, then reset the cursor to 0 when it
is not a valid index of the new list (the visible-tags recomputation of lines
163-174 is modelled separately by `computeTagsFromRefs`). -/
def applyFilterS (s : SelState) : SelState :=
  let filtered := applyFilterIndices s.notes s.searchQuery s.activeTagFilters
  let sel := if filtered.length ≤ s.selected then 0 else s.selected
  { s with filteredNotes := filtered, selected := sel }

/-- `App::move_selection` (src/tui/mod.rs lines 177-183): cyclic movement by
`delta` via `rem_euclid` (Euclidean remainder), a no-op on an empty filtered
list. -/
def moveSelection (s : SelState) (delta : Int) : SelState :=
  let len := s.filteredNotes.length
  if len = 0 then s
  else { s with selected := (((s.selected : Int) + delta).emod (len : Int)).toNat }

/-- `App::new` (src/tui/mod.rs lines 83-118): a fresh session over a snapshot,
with the identity filtered index list and cursor 0. -/
def appNew (notes : List NoteEntry) : SelState :=
  { notes := notes, searchQuery := "", activeTagFilters := [],
    filteredNotes := List.range notes.length, selected := 0 }

/-- One session step touching the selection state.  Every mutation of the
query, the active tag filters, the note snapshot, the filtered list or the
cursor performed by the event handlers in src/tui/events.rs factors through
these three shapes: an arbitrary update of query/filters/snapshot followed by
`apply_filter` (search editing, tag-filter toggling and clearing,
`refresh_notes`), a `move_selection` call, and a direct cursor reset to 0. -/
inductive SelStep : SelState → SelState → Prop
  | filter (s : SelState) (q : String) (tf : List String) (ns : List NoteEntry) :
      SelStep s (applyFilterS { s with searchQuery := q, activeTagFilters := tf, notes := ns })
  | move (s : SelState) (delta : Int) : SelStep s (moveSelection s delta)
  | reset (s : SelState) : SelStep s { s with selected := 0 }

/-- A selection state reachable from a fresh session by handler steps. -/
def SelReachable (notes : List NoteEntry) (s : SelState) : Prop :=
  Relation.ReflTransGen SelStep (appNew notes) s

/-- The cursor invariant: a valid index into the filtered list, or exactly 0
when the filtered list is empty. -/
def selInv (s : SelState) : Prop :=
  s.selected < s.filteredNotes.length
    ∨ (s.filteredNotes.length = 0 ∧ s.selected = 0)

theorem selInv_appNew (notes : List NoteEntry) : selInv (appNew notes) := by
  unfold selInv appNew
  cases notes with
  | nil => right; simp
  | cons a t => left; simp

theorem selInv_applyFilterS (s : SelState) : selInv (applyFilterS s) := by
  unfold selInv applyFilterS
  dsimp only
  by_cases h : (applyFilterIndices s.notes s.searchQuery s.activeTagFilters).length ≤ s.selected
  · rw [if_pos h]
    omega
  · rw [if_neg h]
    omega

theorem selInv_moveSelection (s : SelState) (delta : Int) (h : selInv s) :
    selInv (moveSelection s delta) := by
  unfold selInv at h ⊢
  unfold moveSelection
  dsimp only
  by_cases hlen : s.filteredNotes.length = 0
  · rw [if_pos hlen]
    omega
  · rw [if_neg hlen]
    dsimp only
    left
    have hpos : (0 : Int) < (s.filteredNotes.length : Int) := by
      omega
    have h1 : 0 ≤ ((s.selected : Int) + delta).emod (s.filteredNotes.length : Int) :=
      Int.emod_nonneg _ (by omega)
    have h2 : ((s.selected : Int) + delta).emod (s.filteredNotes.length : Int)
        < (s.filteredNotes.length : Int) :=
      Int.emod_lt_of_pos _ hpos
    omega

theorem selInv_reset (s : SelState) : selInv { s with selected := 0 } := by
  unfold selInv
  dsimp only
  by_cases h : s.filteredNotes.length = 0
  · right; exact ⟨h, rfl⟩
  · left; omega

theorem selInv_of_reachable (notes : List NoteEntry) (s : SelState)
    (h : SelReachable notes s) : selInv s := by
  unfold SelReachable at h
  induction h with
  | refl => exact selInv_appNew notes
  | tail hsteps hstep ih =>
    cases hstep with
    | filter q tf ns => exact selInv_applyFilterS _
    | move delta => exact selInv_moveSelection _ _ ih
    | reset => exact selInv_reset _

/-- C4: in every session state reachable by handler steps, the selection
cursor is a valid index into the filtered list, or exactly 0 when the filtered
list is empty; after `move_selection` with any delta the cursor is in
`[0, filtered.len())` when the filtered list is non-empty and stays 0 when it
is empty. -/
theorem selection_cursor_invariant (notes : List NoteEntry) (s : SelState)
    (h : SelReachable notes s) :
    selInv s
      ∧ (∀ delta : Int, s.filteredNotes.length ≠ 0 →
          (moveSelection s delta).selected < s.filteredNotes.length)
      ∧ (∀ delta : Int, s.filteredNotes.length = 0 →
          (moveSelection s delta).selected = 0) := by
  have hinv := selInv_of_reachable notes s h
  refine ⟨hinv, ?_, ?_⟩
  · intro delta hlen
    have := selInv_moveSelection s delta hinv
    unfold selInv at this
    unfold moveSelection at this ⊢
    simp only [hlen, if_false] at this ⊢
    omega
  · intro delta hlen
    unfold moveSelection
    simp only [hlen, if_true]
    unfold selInv at hinv
    omega

/-- Witness for `selection_cursor_invariant`: the fresh session over a
one-note snapshot is reachable, its cursor is in bounds, and moving by any
concrete delta keeps it so. -/
theorem selection_cursor_invariant_witness :
    selInv (appNew [NoteEntry.mk 1 "a" "b" []])
      ∧ (moveSelection (appNew [NoteEntry.mk 1 "a" "b" []]) 5).selected
          < (appNew [NoteEntry.mk 1 "a" "b" []]).filteredNotes.length := by
  have h := selection_cursor_invariant [NoteEntry.mk 1 "a" "b" []]
    (appNew [NoteEntry.mk 1 "a" "b" []]) Relation.ReflTransGen.refl
  exact ⟨h.1, h.2.1 5 (by decide)⟩

/-! ## Tag facets (C5) -/

/-- A tag facet: tag name plus occurrence count, from `TagEntry` in
src/tui/mod.rs. -/
structure TagEntry where
  name : String
  count : Nat
deriving Repr, DecidableEq, Inhabited

/-- Lexicographic non-strict order on character lists by code point, modelling
Rust `str::cmp` (UTF-8 byte order coincides with code-point order). -/
def lexLeL : List Char → List Char → Bool
  | [], _ => true
  | _ :: _, [] => false
  | a :: as, b :: bs => if a = b then lexLeL as bs else decide (a.toNat < b.toNat)

/-- The sort comparator of `compute_tags_from_refs` (src/tui/mod.rs line 298),
`b.count.cmp(&a.count).then(a.name.cmp(&b.name))`, as a non-strict Boolean
total order: descending by count, ties broken ascending by name. -/
def facetLE (a b : TagEntry) : Bool :=
  decide (b.count < a.count) || (a.count == b.count && lexLeL a.name.data b.name.data)

/-- The comparator as a decidable relation, for sorting. -/
def facetRel (a b : TagEntry) : Prop := facetLE a b = true

instance : DecidableRel facetRel :=
  fun a b => inferInstanceAs (Decidable (facetLE a b = true))

theorem charToNat_inj {a b : Char} (h : a.toNat = b.toNat) : a = b := by
  apply Char.eq_of_val_eq
  apply UInt32.eq_of_toBitVec_eq
  exact BitVec.eq_of_toNat_eq h

theorem lexLeL_total (as : List Char) :
    ∀ bs, lexLeL as bs = true ∨ lexLeL bs as = true := by
  induction as with
  | nil => intro bs; left; rfl
  | cons a as ih =>
    intro bs
    cases bs with
    | nil => right; rfl
    | cons b bs =>
      by_cases hab : a = b
      · subst hab
        simp only [lexLeL, if_pos rfl]
        exact ih bs
      · have hba : ¬b = a := fun h => hab h.symm
        simp only [lexLeL, if_neg hab, if_neg hba]
        have hne : a.toNat ≠ b.toNat := fun hc => hab (charToNat_inj hc)
        rcases Nat.lt_or_ge a.toNat b.toNat with h | h
        · left; exact decide_eq_true h
        · right; exact decide_eq_true (by omega)

theorem lexLeL_trans (as : List Char) :
    ∀ bs cs, lexLeL as bs = true → lexLeL bs cs = true → lexLeL as cs = true := by
  induction as with
  | nil => intro bs cs _ _; rfl
  | cons a as ih =>
    intro bs cs h1 h2
    cases bs with
    | nil => simp [lexLeL] at h1
    | cons b bs =>
      cases cs with
      | nil => simp [lexLeL] at h2
      | cons c cs =>
        by_cases hab : a = b
        · subst hab
          simp only [lexLeL, if_pos rfl] at h1
          by_cases hac : a = c
          · subst hac
            simp only [lexLeL, if_pos rfl] at h2 ⊢
            exact ih bs cs h1 h2
          · simp only [lexLeL, if_neg hac] at h2 ⊢
            exact h2
        · simp only [lexLeL, if_neg hab] at h1
          have h1' := of_decide_eq_true h1
          by_cases hbc : b = c
          · subst hbc
            simp only [lexLeL, if_neg hab]
            exact decide_eq_true h1'
          · simp only [lexLeL, if_neg hbc] at h2
            have h2' := of_decide_eq_true h2
            have hac : ¬a = c := by
              intro h
              subst h
              omega
            simp only [lexLeL, if_neg hac]
            exact decide_eq_true (by omega)

instance : IsTotal TagEntry facetRel := by
  constructor
  intro a b
  unfold facetRel facetLE
  simp only [Bool.or_eq_true, decide_eq_true_eq, Bool.and_eq_true, beq_iff_eq]
  rcases Nat.lt_trichotomy b.count a.count with h | h | h
  · left; left; exact h
  · rcases lexLeL_total a.name.data b.name.data with hn | hn
    · left; right; exact ⟨h.symm, hn⟩
    · right; right; exact ⟨h, hn⟩
  · right; left; exact h

instance : IsTrans TagEntry facetRel := by
  constructor
  intro a b c h1 h2
  unfold facetRel facetLE at h1 h2 ⊢
  simp only [Bool.or_eq_true, decide_eq_true_eq, Bool.and_eq_true, beq_iff_eq] at h1 h2 ⊢
  rcases h1 with h1 | ⟨h1e, h1n⟩ <;> rcases h2 with h2 | ⟨h2e, h2n⟩
  · left; omega
  · left; omega
  · left; omega
  · right; exact ⟨h1e.trans h2e, lexLeL_trans _ _ _ h1n h2n⟩

/-- Total occurrence count of tag `name` over `notes`: what the HashMap loop
of `compute_tags_from_refs` (src/tui/mod.rs lines 288-293) accumulates for
that key. -/
def tagOccurrences (notes : List NoteEntry) (name : String) : Nat :=
  (notes.map (fun n => n.tags.count name)).sum

/-- `compute_tags_from_refs` (src/tui/mod.rs lines 287-300): one entry per
distinct tag name occurring in `notes` with its total occurrence count,
sorted by `facetRel`.  The Rust code accumulates counts in a HashMap
(unordered iteration) and then sorts with `sort_by`; two distinct entries
never compare equal under the comparator (the name determines the count), so
every correct sort of that entry set yields the same list and the embedding
may sort the entry set with insertion sort. -/
def computeTagsFromRefs (notes : List NoteEntry) : List TagEntry :=
  List.insertionSort facetRel
    (((notes.map (fun n => n.tags)).flatten.dedup).map
      (fun nm => TagEntry.mk nm (tagOccurrences notes nm)))

/-- The filtered note rows that `App::apply_filter` passes to
`compute_tags_from_refs` (src/tui/mod.rs lines 163-169). -/
def filteredNotesOf (notes : List NoteEntry) (q : String) (tf : List String) :
    List NoteEntry :=
  (applyFilterIndices notes q tf).map (fun i => notes.getD i default)

/-- The visible tag facets after `App::apply_filter` (src/tui/mod.rs line 169):
computed from the filtered notes only. -/
def visibleTagsOf (notes : List NoteEntry) (q : String) (tf : List String) :
    List TagEntry :=
  computeTagsFromRefs (filteredNotesOf notes q tf)

theorem tagOccurrences_eq_countP (nm : String) :
    ∀ notes : List NoteEntry, (∀ n ∈ notes, n.tags.Nodup) →
      tagOccurrences notes nm = notes.countP (fun n => decide (nm ∈ n.tags)) := by
  intro notes
  induction notes with
  | nil => intro _; rfl
  | cons a t ih =>
    intro h
    have ha := h a (List.mem_cons_self a t)
    have ht := ih (fun n hn => h n (List.mem_cons_of_mem a hn))
    unfold tagOccurrences at ht ⊢
    simp only [List.map_cons, List.sum_cons, List.countP_cons]
    by_cases hm : nm ∈ a.tags
    · rw [List.count_eq_one_of_mem ha hm]
      rw [decide_eq_true hm, if_pos rfl]
      omega
    · rw [List.count_eq_zero_of_not_mem hm]
      rw [decide_eq_false hm]
      simp only [Bool.false_eq_true, if_false]
      omega

theorem computeTags_count (notes : List NoteEntry) (h : ∀ n ∈ notes, n.tags.Nodup) :
    ∀ e ∈ computeTagsFromRefs notes,
      e.count = notes.countP (fun n => decide (e.name ∈ n.tags)) := by
  intro e he
  unfold computeTagsFromRefs at he
  rw [(List.perm_insertionSort facetRel _).mem_iff, List.mem_map] at he
  obtain ⟨nm, _, rfl⟩ := he
  exact tagOccurrences_eq_countP nm notes h

/-- Strict version of the facet ordering: strictly greater count, or equal
count and strictly smaller name. -/
def facetStrict (a b : TagEntry) : Prop :=
  b.count < a.count
    ∨ (a.count = b.count ∧ lexLeL a.name.data b.name.data = true ∧ a.name ≠ b.name)

theorem computeTags_sorted (notes : List NoteEntry) :
    List.Pairwise facetStrict (computeTagsFromRefs notes) := by
  have hsorted := List.sorted_insertionSort facetRel
    (((notes.map (fun n => n.tags)).flatten.dedup).map
      (fun nm => TagEntry.mk nm (tagOccurrences notes nm)))
  have hnd : List.Pairwise (fun a b : String => a ≠ b)
      ((notes.map (fun n => n.tags)).flatten.dedup) := List.nodup_dedup _
  have hne : List.Pairwise (fun a b : TagEntry => a.name ≠ b.name)
      (((notes.map (fun n => n.tags)).flatten.dedup).map
        (fun nm => TagEntry.mk nm (tagOccurrences notes nm))) :=
    List.Pairwise.map _ (fun a b hab => by simpa using hab) hnd
  have hne2 : List.Pairwise (fun a b : TagEntry => a.name ≠ b.name)
      (computeTagsFromRefs notes) := by
    unfold computeTagsFromRefs
    exact (List.Perm.pairwise_iff (fun h => h.symm)
      (List.perm_insertionSort facetRel _)).mpr hne
  have hand := List.Pairwise.and hsorted hne2
  apply hand.imp
  intro a b hab
  obtain ⟨hle, hne⟩ := hab
  unfold facetRel facetLE at hle
  simp only [Bool.or_eq_true, decide_eq_true_eq, Bool.and_eq_true, beq_iff_eq] at hle
  unfold facetStrict
  rcases hle with h | ⟨he, hn⟩
  · left; exact h
  · right; exact ⟨he, hn, hne⟩

/-- The note "alpha" of spec Scenario A, with tags x and y. -/
def noteAlpha : NoteEntry := NoteEntry.mk 1 "alpha" "" ["x", "y"]

/-- The note "beta" of spec Scenario A, with tag y. -/
def noteBeta : NoteEntry := NoteEntry.mk 2 "beta" "" ["y"]

theorem filteredNotesOf_tags_nodup (notes : List NoteEntry) (q : String)
    (tf : List String) (h : ∀ n ∈ notes, n.tags.Nodup) :
    ∀ n ∈ filteredNotesOf notes q tf, n.tags.Nodup := by
  intro n hn
  rw [filteredNotesOf, List.mem_map] at hn
  obtain ⟨i, _, rfl⟩ := hn
  by_cases hlt : i < notes.length
  · have heq : notes.getD i default = notes[i] := by
      simp [List.getD, List.getElem?_eq_getElem hlt]
    rw [heq]
    have hmem : notes[i] ∈ notes := List.getElem_mem hlt
    exact h _ hmem
  · have hnone : notes[i]? = none := List.getElem?_eq_none (by omega)
    have heq : notes.getD i default = default := by
      simp [List.getD, hnone]
    rw [heq]
    exact List.nodup_nil

/-- C5: tag facets are derived from the filtered note set only — each facet
count equals the number of filtered notes carrying that tag (given the data
model invariant that a note's tag list holds no duplicates) — and the facet
list is pairwise ordered descending by count with ties broken ascending by
name; on Scenario A (alpha with tags x,y and beta with tag y, active filter
set containing y, empty query) the filtered list is [alpha, beta] and the
facets are [(y,2),(x,1)]. -/
theorem facet_spec (notes : List NoteEntry) (q : String) (tf : List String)
    (h : ∀ n ∈ notes, n.tags.Nodup) :
    (∀ e ∈ visibleTagsOf notes q tf,
        e.count = (filteredNotesOf notes q tf).countP
          (fun n => decide (e.name ∈ n.tags)))
      ∧ List.Pairwise facetStrict (visibleTagsOf notes q tf)
      ∧ applyFilterIndices [noteAlpha, noteBeta] "" ["y"] = [0, 1]
      ∧ visibleTagsOf [noteAlpha, noteBeta] "" ["y"]
          = [TagEntry.mk "y" 2, TagEntry.mk "x" 1] := by
  refine ⟨?_, computeTags_sorted _, by decide, by decide⟩
  exact computeTags_count _ (filteredNotesOf_tags_nodup notes q tf h)

/-- Witness for `facet_spec`: on Scenario A the facet count of y equals the
number of filtered notes carrying y. -/
theorem facet_spec_witness :
    (TagEntry.mk "y" 2).count
      = (filteredNotesOf [noteAlpha, noteBeta] "" ["y"]).countP
          (fun n => decide ((TagEntry.mk "y" 2).name ∈ n.tags)) :=
  (facet_spec [noteAlpha, noteBeta] "" ["y"] (by decide)).1
    (TagEntry.mk "y" 2) (by decide)

/-! ## Tag autocomplete (C8) -/

/-- `App::update_tag_suggestions` (src/tui/mod.rs lines 194-227) as a pure
function of the known tag names and the input buffer: take the last
whitespace-delimited token of the input as the partial prefix (an empty
partial yields no suggestions), keep the known names whose lowercase form
starts with the lowercase partial and that are not among the earlier,
completed tokens of the buffer, and truncate to 5.  The Rust code filters
`all_tags : Vec<TagEntry>` on the entry's name and then maps to the name;
filtering the name list directly yields the same suggestion list. -/
def updateTagSuggestions (allTags : List String) (input : String) : List String :=
  let currentWord := ((splitWs input).getLast?).getD ""
  if currentWord.data.isEmpty then []
  else
    let currentLower := lowerStr currentWord
    let enteredTags := splitWs input
    let enteredSet := enteredTags.take (enteredTags.length - 1)
    (allTags.filter (fun t =>
        startsWithL currentLower.data (lowerStr t).data && !(enteredSet.contains t))).take 5

/-- C8: tag suggestions number at most 5; an empty partial token yields none;
every suggestion matches the lowercased last whitespace-delimited token of the
buffer as a prefix of its lowercased form, and no suggestion is a completed
(non-final) whitespace-delimited token of the buffer. -/
theorem tag_suggestions_spec (allTags : List String) (input : String) :
    (updateTagSuggestions allTags input).length ≤ 5
      ∧ (((splitWs input).getLast?).getD "" = "" →
          updateTagSuggestions allTags input = [])
      ∧ (∀ s ∈ updateTagSuggestions allTags input,
          startsWithL (lowerStr (((splitWs input).getLast?).getD "")).data
              (lowerStr s).data = true
            ∧ s ∉ (splitWs input).take ((splitWs input).length - 1)) := by
  refine ⟨?_, ?_, ?_⟩
  · unfold updateTagSuggestions
    by_cases h : (((splitWs input).getLast?).getD "").data.isEmpty = true
    · rw [if_pos h]; simp
    · rw [if_neg h]; exact List.length_take_le 5 _
  · intro h
    unfold updateTagSuggestions
    rw [if_pos (by rw [h]; rfl)]
  · intro s hs
    unfold updateTagSuggestions at hs
    by_cases h : (((splitWs input).getLast?).getD "").data.isEmpty = true
    · rw [if_pos h] at hs
      exact absurd hs (List.not_mem_nil s)
    · rw [if_neg h] at hs
      have hs2 := List.take_subset 5 _ hs
      rw [List.mem_filter] at hs2
      obtain ⟨-, hp⟩ := hs2
      rw [Bool.and_eq_true] at hp
      obtain ⟨hpre, hnot⟩ := hp
      refine ⟨hpre, ?_⟩
      intro hmem
      rw [Bool.not_eq_eq_eq_not, Bool.not_true] at hnot
      simp [hmem] at hnot

/-- Witness for `tag_suggestions_spec`: with known tag "work" and buffer "w",
the suggestion "work" matches the prefix and is not a completed token. -/
theorem tag_suggestions_spec_witness :
    startsWithL (lowerStr (((splitWs "w").getLast?).getD "")).data
        (lowerStr "work").data = true
      ∧ "work" ∉ (splitWs "w").take ((splitWs "w").length - 1) :=
  (tag_suggestions_spec ["work"] "w").2.2 "work" (by decide)

/-! ## Markdown renderer placeholder (C9) -/

/-- Colors used by the renderer model (ratatui `Color` fragment). -/
inductive MdColor
  | darkGray
deriving Repr, DecidableEq

/-- A styled span: text plus optional foreground color. -/
structure MdSpan where
  text : String
  color : Option MdColor
deriving Repr, DecidableEq

/-- A rendered line: a sequence of styled spans. -/
structure MdLine where
  spans : List MdSpan
deriving Repr, DecidableEq

/-- The placeholder line returned for blank input by `render_markdown`
(src/tui/markdown.rs lines 5-10): the dark-gray span "(empty note)". -/
def placeholderLine : MdLine :=
  MdLine.mk [MdSpan.mk "(empty note)" (some MdColor.darkGray)]

/-- Rust `str::trim`: drop leading and trailing whitespace. -/
def strTrim (s : String) : String :=
  String.mk (((s.data.dropWhile Char.isWhitespace).reverse.dropWhile
    Char.isWhitespace).reverse)

/-- `render_markdown` (src/tui/markdown.rs lines 4-263): a trim-empty input
short-circuits to the single placeholder line before any parsing; otherwise
the pulldown-cmark event loop produces the styled lines.  That loop is driven
by the external pulldown-cmark parser, which the embedding leaves abstract as
the argument `body`; claim C9 concerns only inputs caught by the guard, and
the theorem below holds for every `body`. -/
def render_markdown (body : String → List MdLine) (input : String) : List MdLine :=
  if (strTrim input).data.isEmpty then [placeholderLine] else body input

/-- C9: for every whitespace-only input — in particular "" and " " — the
renderer yields exactly the one placeholder line, whatever the parser-driven
branch would produce. -/
theorem render_markdown_blank (body : String → List MdLine) (input : String)
    (h : ∀ c ∈ input.data, c.isWhitespace = true) :
    render_markdown body input = [placeholderLine]
      ∧ render_markdown body "" = [placeholderLine]
      ∧ render_markdown body " " = [placeholderLine] := by
  refine ⟨?_, rfl, rfl⟩
  unfold render_markdown strTrim
  rw [List.dropWhile_eq_nil_iff.mpr h]
  rfl

/-- Witness for `render_markdown_blank`: the constantly-empty body at the
whitespace-only input "  ". -/
theorem render_markdown_blank_witness :
    render_markdown (fun _ => []) "  " = [placeholderLine] :=
  (render_markdown_blank (fun _ => []) "  " (by decide)).1

/-! ## Name and tag validation (C6) -/

theorem head?_dropWhile_not {α : Type} (p : α → Bool) (l : List α) :
    ∀ a, (l.dropWhile p).head? = some a → p a = false := by
  induction l with
  | nil => intro a h; simp at h
  | cons c t ih =>
    intro a h
    rw [List.dropWhile_cons] at h
    by_cases hc : p c = true
    · rw [if_pos hc] at h
      exact ih a h
    · rw [if_neg hc] at h
      simp at h
      rw [← h]
      simpa using hc

theorem dropWhile_eq_self_of_head {α : Type} {p : α → Bool} {l : List α}
    (h : ∀ a, l.head? = some a → p a = false) : l.dropWhile p = l := by
  cases l with
  | nil => rfl
  | cons c t =>
    rw [List.dropWhile_cons, if_neg]
    simp [h c rfl]

theorem getLast?_dropWhile {α : Type} (p : α → Bool) (l : List α)
    (h : l.dropWhile p ≠ []) : (l.dropWhile p).getLast? = l.getLast? := by
  obtain ⟨t, ht⟩ := List.dropWhile_suffix (l := l) p
  calc (l.dropWhile p).getLast?
      = (t ++ l.dropWhile p).getLast? := (List.getLast?_append_of_ne_nil _ h).symm
    _ = l.getLast? := by rw [ht]

/-- The character-list core of Rust `str::trim`. -/
def trimL (l : List Char) : List Char :=
  ((l.dropWhile Char.isWhitespace).reverse.dropWhile Char.isWhitespace).reverse

theorem trimL_head (l : List Char) :
    ∀ a, (trimL l).head? = some a → a.isWhitespace = false := by
  intro a h
  unfold trimL at h
  rw [List.head?_reverse] at h
  by_cases hnil :
      ((l.dropWhile Char.isWhitespace).reverse.dropWhile Char.isWhitespace) = []
  · rw [hnil] at h
    simp at h
  · rw [getLast?_dropWhile _ _ hnil, List.getLast?_reverse] at h
    exact head?_dropWhile_not _ _ a h

theorem trimL_getLast (l : List Char) :
    ∀ a, (trimL l).getLast? = some a → a.isWhitespace = false := by
  intro a h
  unfold trimL at h
  rw [List.getLast?_reverse] at h
  exact head?_dropWhile_not _ _ a h

theorem trimL_idem (l : List Char) : trimL (trimL l) = trimL l := by
  have h1 : (trimL l).dropWhile Char.isWhitespace = trimL l :=
    dropWhile_eq_self_of_head (trimL_head l)
  have h2 : (trimL l).reverse.dropWhile Char.isWhitespace = (trimL l).reverse := by
    apply dropWhile_eq_self_of_head
    intro a ha
    rw [List.head?_reverse] at ha
    exact trimL_getLast l a ha
  show (((trimL l).dropWhile Char.isWhitespace).reverse.dropWhile
      Char.isWhitespace).reverse = trimL l
  rw [h1, h2, List.reverse_reverse]

theorem strTrim_eq_trimL (s : String) : strTrim s = String.mk (trimL s.data) := rfl

theorem strTrim_idem (s : String) : strTrim (strTrim s) = strTrim s := by
  show String.mk (trimL (String.mk (trimL s.data)).data) = String.mk (trimL s.data)
  exact congrArg String.mk (trimL_idem s.data)

/-- Rust `str::len`: the UTF-8 byte length of a string. -/
def byteLen (s : String) : Nat :=
  (s.data.map Char.utf8Size).sum

/-- `validate_name` (src/utils.rs lines 4-16): trim, then reject an empty
name, a path separator, or a name longer than 100 bytes (Rust `str::len`
counts UTF-8 bytes, not characters).  Error messages are modelled without
the Rust format interpolation. -/
def validate_name (name : String) : Except String Unit :=
  let trimmed := strTrim name
  if trimmed.data.isEmpty then Except.error "Note name cannot be empty."
  else if trimmed.data.contains '/' || trimmed.data.contains '\\' then
    Except.error "Note name cannot contain path separators."
  else if 100 < byteLen trimmed then
    Except.error "Note name cannot exceed 100 characters."
  else Except.ok ()

/-- The per-tag checks of `validate_tags` (src/utils.rs lines 24-38): trim,
then reject an empty tag, an inner space, or a tag longer than 50 bytes. -/
def validateTag (tag : String) : Except String Unit :=
  let trimmed := strTrim tag
  if trimmed.data.isEmpty then Except.error "Tag cannot be empty."
  else if trimmed.data.contains ' ' then Except.error "Tag cannot contain spaces."
  else if 50 < byteLen trimmed then Except.error "Tag cannot exceed 50 characters."
  else Except.ok ()

/-- `validate_tags` (src/utils.rs lines 24-38): first failing tag wins. -/
def validate_tags : List String → Except String Unit
  | [] => Except.ok ()
  | t :: ts =>
    match validateTag t with
    | Except.error e => Except.error e
    | Except.ok _ => validate_tags ts

/-- The TUI modes, from `Mode` in src/tui/mod.rs. -/
inductive Mode
  | Normal
  | Search
  | Command
  | AddNoteName
  | AddNoteTags
  | EditTagsAdd
  | EditTagsRemove
  | TagBrowse
  | VisualLine
deriving Repr, DecidableEq

/-- The Enter branch of `handle_add_note_name` (src/tui/events.rs lines
241-253): trim the buffer, validate the name, reject a duplicate of an
existing title; on failure stay in AddNoteName with a status message (and no
note is created — insertion only happens later, in the AddNoteTags flow);
on success advance to AddNoteTags.  `existingTitles` stands for the stored
titles consulted by the `db::get_note` title lookup; the returned pair is the
new mode and the status message set by the branch. -/
def handleAddNoteNameEnter (existingTitles : List String) (buffer : String) :
    Mode × Option String :=
  let name := strTrim buffer
  match validate_name name with
  | Except.error e => (Mode.AddNoteName, some ("Invalid name: " ++ e))
  | Except.ok _ =>
    if existingTitles.contains name then
      (Mode.AddNoteName, some ("Note already exists: " ++ name))
    else
      (Mode.AddNoteTags, none)

theorem validate_name_ok_iff (x : String) :
    validate_name x = Except.ok ()
      ↔ ((strTrim x).data ≠ []
          ∧ '/' ∉ (strTrim x).data
          ∧ '\\' ∉ (strTrim x).data
          ∧ byteLen (strTrim x) ≤ 100) := by
  unfold validate_name
  by_cases h1 : (strTrim x).data.isEmpty = true
  · rw [if_pos h1]
    have : (strTrim x).data = [] := by simpa using h1
    simp [this]
  · rw [if_neg h1]
    by_cases h2 : ((strTrim x).data.contains '/' || (strTrim x).data.contains '\\') = true
    · rw [if_pos h2]
      rw [Bool.or_eq_true] at h2
      constructor
      · intro h; exact absurd h (by simp)
      · rintro ⟨-, hs, hbs, -⟩
        rcases h2 with h2 | h2
        · exact absurd (by simpa using h2) hs
        · exact absurd (by simpa using h2) hbs
    · rw [if_neg h2]
      by_cases h3 : 100 < byteLen (strTrim x)
      · rw [if_pos h3]
        constructor
        · intro h; exact absurd h (by simp)
        · rintro ⟨-, -, -, hle⟩; omega
      · rw [if_neg h3]
        rw [Bool.or_eq_true] at h2
        push_neg at h2
        constructor
        · intro _
          refine ⟨fun hh => h1 (by simp [hh]), ?_, ?_, by omega⟩
          · intro hm
            exact h2.1 (by simpa using hm)
          · intro hm
            exact h2.2 (by simpa using hm)
        · intro _
          rfl

theorem validateTag_ok_iff (t : String) :
    validateTag t = Except.ok ()
      ↔ ((strTrim t).data ≠ []
          ∧ ' ' ∉ (strTrim t).data
          ∧ byteLen (strTrim t) ≤ 50) := by
  unfold validateTag
  by_cases h1 : (strTrim t).data.isEmpty = true
  · rw [if_pos h1]
    have : (strTrim t).data = [] := by simpa using h1
    simp [this]
  · rw [if_neg h1]
    by_cases h2 : (strTrim t).data.contains ' ' = true
    · rw [if_pos h2]
      constructor
      · intro h; exact absurd h (by simp)
      · rintro ⟨-, hs, -⟩
        exact absurd (by simpa using h2) hs
    · rw [if_neg h2]
      by_cases h3 : 50 < byteLen (strTrim t)
      · rw [if_pos h3]
        constructor
        · intro h; exact absurd h (by simp)
        · rintro ⟨-, -, hle⟩; omega
      · rw [if_neg h3]
        constructor
        · intro _
          refine ⟨fun hh => h1 (by simp [hh]), ?_, by omega⟩
          intro hm
          exact h2 (by simpa using hm)
        · intro _
          rfl

/-- A 34-character name of three-byte characters: 34 characters but 102 UTF-8
bytes. -/
def euroName : String := String.mk (List.replicate 34 '€')

/-- C6 counterexample: `euroName` satisfies every success condition of the
claim as stated — trimmed it is non-empty, has no '/' or '\\', has 34 ≤ 100
characters, and duplicates no existing title — yet confirming it fails and
the session stays in AddNoteName, because the code limits the UTF-8 byte
length (102 here), not the character count. -/
theorem add_note_name_charlen_counterexample :
    (strTrim euroName).data.length = 34
      ∧ (strTrim euroName).data ≠ []
      ∧ '/' ∉ (strTrim euroName).data
      ∧ '\\' ∉ (strTrim euroName).data
      ∧ ¬strTrim euroName ∈ ([] : List String)
      ∧ byteLen (strTrim euroName) = 102
      ∧ handleAddNoteNameEnter [] euroName
          = (Mode.AddNoteName,
              some "Invalid name: Note name cannot exceed 100 characters.") := by
  decide

/-- C6 (amended): confirming a name in AddNoteName succeeds exactly when the
trimmed name is non-empty, contains no '/' or '\\', is at most 100 UTF-8
bytes long, and is not a duplicate of an existing title; otherwise the
session stays in AddNoteName with a status message shown; a tag is valid
exactly when it is non-empty, contains no space, and is at most 50 UTF-8
bytes long. -/
theorem add_note_name_validation (titles : List String) (buffer : String) :
    (handleAddNoteNameEnter titles buffer = (Mode.AddNoteTags, none)
        ↔ ((strTrim buffer).data ≠ []
            ∧ '/' ∉ (strTrim buffer).data
            ∧ '\\' ∉ (strTrim buffer).data
            ∧ byteLen (strTrim buffer) ≤ 100
            ∧ ¬strTrim buffer ∈ titles))
      ∧ (handleAddNoteNameEnter titles buffer = (Mode.AddNoteTags, none)
          ∨ ((handleAddNoteNameEnter titles buffer).1 = Mode.AddNoteName
              ∧ ((handleAddNoteNameEnter titles buffer).2).isSome = true))
      ∧ (∀ t : String, validateTag t = Except.ok ()
          ↔ ((strTrim t).data ≠ []
              ∧ ' ' ∉ (strTrim t).data
              ∧ byteLen (strTrim t) ≤ 50)) := by
  have hcond : (validate_name (strTrim buffer) = Except.ok ())
      ↔ ((strTrim buffer).data ≠ []
          ∧ '/' ∉ (strTrim buffer).data
          ∧ '\\' ∉ (strTrim buffer).data
          ∧ byteLen (strTrim buffer) ≤ 100) := by
    rw [validate_name_ok_iff, strTrim_idem]
  have hdef : handleAddNoteNameEnter titles buffer
      = (match validate_name (strTrim buffer) with
        | Except.error e => (Mode.AddNoteName, some ("Invalid name: " ++ e))
        | Except.ok _ =>
          if titles.contains (strTrim buffer) then
            (Mode.AddNoteName, some ("Note already exists: " ++ strTrim buffer))
          else
            (Mode.AddNoteTags, none)) := rfl
  refine ⟨?_, ?_, validateTag_ok_iff⟩
  · cases hv : validate_name (strTrim buffer) with
    | error e =>
      rw [hdef, hv]
      constructor
      · intro h
        exact absurd h (by simp)
      · rintro ⟨hne, hs, hbs, hle, -⟩
        have hok : validate_name (strTrim buffer) = Except.ok () :=
          hcond.mpr ⟨hne, hs, hbs, hle⟩
        rw [hv] at hok
        exact absurd hok (by simp)
    | ok u =>
      cases u
      rw [hdef, hv]
      by_cases hc : titles.contains (strTrim buffer) = true
      · rw [if_pos hc]
        constructor
        · intro h
          exact absurd h (by simp)
        · rintro ⟨-, -, -, -, hnin⟩
          exact absurd (by simpa using hc) hnin
      · rw [if_neg hc]
        have h4 := hcond.mp hv
        constructor
        · intro _
          refine ⟨h4.1, h4.2.1, h4.2.2.1, h4.2.2.2, ?_⟩
          intro hmem
          exact hc (by simpa using hmem)
        · intro _
          rfl
  · cases hv : validate_name (strTrim buffer) with
    | error e =>
      right
      rw [hdef, hv]
      exact ⟨rfl, rfl⟩
    | ok u =>
      cases u
      by_cases hc : titles.contains (strTrim buffer) = true
      · right
        rw [hdef, hv, if_pos hc]
        exact ⟨rfl, rfl⟩
      · left
        rw [hdef, hv, if_neg hc]

/-! ## Filename sanitization for the editor handoff (C7) -/

/-- The per-character replacement of `sanitize_filename` (src/utils.rs lines
18-22), applied over the character list as the Rust `chars().map().collect()`
does; `char::is_alphanumeric` is modelled by its ASCII restriction. -/
def sanitizeCharList : List Char → List Char
  | [] => []
  | c :: cs =>
    (if c.isAlphanum || c = '-' || c = '_' then c else '_') :: sanitizeCharList cs

/-- `sanitize_filename` (src/utils.rs lines 18-22). -/
def sanitize_filename (name : String) : String :=
  String.mk (sanitizeCharList name.data)

/-- The outcome of the Enter branch of `handle_add_note_tags`: the new mode,
the status message, the temp file handed to the editor (when one was opened),
and the inserted note row (title, contents, tags) when insertion happened. -/
structure AddTagsResult where
  mode : Mode
  message : Option String
  tempFileUsed : Option String
  inserted : Option (String × String × List String)
deriving Repr, DecidableEq

/-- The temp-file name used by `get_user_input` (src/utils.rs lines 56-61):
the sanitized note name plus the ".md" extension, inside the temp directory. -/
def tempFileName (name : String) : String :=
  sanitize_filename name ++ ".md"

/-- The editor-and-insert tail of the Enter branch of `handle_add_note_tags`
(src/tui/events.rs lines 286-308): `get_user_input(&name)` edits the temp
file named after the sanitized name, and on success `db::insert_note` stores
the note under the original `name`.  `editor` is the contents the editor
returned (error = editor failure). -/
def addNoteEditorPart (nameBuffer : String) (tags : List String)
    (editor : Except String String) : AddTagsResult :=
  match editor with
  | Except.ok contents =>
    AddTagsResult.mk Mode.Normal (some ("Note created: " ++ nameBuffer))
      (some (tempFileName nameBuffer)) (some (nameBuffer, contents, tags))
  | Except.error e =>
    AddTagsResult.mk Mode.Normal (some ("Error: " ++ e))
      (some (tempFileName nameBuffer)) none

/-- The Enter branch of `handle_add_note_tags` (src/tui/events.rs lines
274-309): split the tags buffer on whitespace, validate the tags when there
are any, then run the editor and insert. -/
def handleAddNoteTagsEnter (nameBuffer tagsBuffer : String)
    (editor : Except String String) : AddTagsResult :=
  let tags := splitWs tagsBuffer
  if tags.isEmpty then addNoteEditorPart nameBuffer tags editor
  else
    match validate_tags tags with
    | Except.error e =>
      AddTagsResult.mk Mode.AddNoteTags (some ("Invalid tags: " ++ e)) none none
    | Except.ok _ => addNoteEditorPart nameBuffer tags editor

/-- C7: the temp-file name handed to the editor is derived from the title by
replacing every character that is not alphanumeric, '-', or '_' with '_'
(plus the ".md" extension), and the sanitization touches only that file
name — whenever the add flow inserts a note, the stored title is the
original, unsanitized name. -/
theorem sanitize_filename_spec (name tagsBuffer : String)
    (editor : Except String String) :
    (sanitize_filename name).data
        = name.data.map (fun c => if c.isAlphanum || c = '-' || c = '_' then c else '_')
      ∧ (∀ tf, (handleAddNoteTagsEnter name tagsBuffer editor).tempFileUsed = some tf →
          tf = sanitize_filename name ++ ".md")
      ∧ (∀ ins, (handleAddNoteTagsEnter name tagsBuffer editor).inserted = some ins →
          ins.1 = name) := by
  refine ⟨?_, ?_, ?_⟩
  · show sanitizeCharList name.data = _
    induction name.data with
    | nil => rfl
    | cons c cs ih => simp [sanitizeCharList, ih]
  · intro tf htf
    unfold handleAddNoteTagsEnter at htf
    by_cases he : (splitWs tagsBuffer).isEmpty = true
    · rw [if_pos he] at htf
      unfold addNoteEditorPart at htf
      cases editor <;> simp_all [tempFileName]
    · rw [if_neg he] at htf
      cases hv : validate_tags (splitWs tagsBuffer) with
      | error e => rw [hv] at htf; simp at htf
      | ok u =>
        cases u
        rw [hv] at htf
        unfold addNoteEditorPart at htf
        cases editor <;> simp_all [tempFileName]
  · intro ins hins
    unfold handleAddNoteTagsEnter at hins
    by_cases he : (splitWs tagsBuffer).isEmpty = true
    · rw [if_pos he] at hins
      unfold addNoteEditorPart at hins
      cases editor with
      | ok contents =>
        dsimp only at hins
        rw [Option.some.injEq] at hins
        rw [← hins]
      | error e =>
        dsimp only at hins
        exact absurd hins (by simp)
    · rw [if_neg he] at hins
      cases hv : validate_tags (splitWs tagsBuffer) with
      | error e =>
        rw [hv] at hins
        dsimp only at hins
        exact absurd hins (by simp)
      | ok u =>
        cases u
        rw [hv] at hins
        unfold addNoteEditorPart at hins
        cases editor with
        | ok contents =>
          dsimp only at hins
          rw [Option.some.injEq] at hins
          rw [← hins]
        | error e =>
          dsimp only at hins
          exact absurd hins (by simp)

/-- Witness for `sanitize_filename_spec`: adding a note named "a b" edits
temp file "a_b.md" but inserts the note under the title "a b". -/
theorem sanitize_filename_spec_witness :
    (handleAddNoteTagsEnter "a b" "" (Except.ok "body")).tempFileUsed
        = some "a_b.md"
      ∧ "a_b.md" = sanitize_filename "a b" ++ ".md"
      ∧ (handleAddNoteTagsEnter "a b" "" (Except.ok "body")).inserted
          = some ("a b", "body", []) := by
  refine ⟨by decide, ?_, by decide⟩
  exact (sanitize_filename_spec "a b" "" (Except.ok "body")).2.1 "a_b.md" (by decide)

/-! ## Body edits and summary staleness in storage (C3, C10) -/

/-- A stored note row restricted to the fields the summary protocol touches
(src/db.rs: the `note`, `summary` and `summary_stale` columns), plus one ghost
history field: `mutatedSinceSummary` is not a stored column — it is set by
every body write (`db::update_note`) and cleared by `db::set_summary`, so it
records whether the body was mutated after the cached summary was stored. -/
structure NoteRowG where
  note : String
  summary : Option String
  summaryStale : Bool
  mutatedSinceSummary : Bool
deriving Repr, DecidableEq

/-- A freshly inserted row (src/db.rs `insert_note`; `summary` NULL and
`summary_stale` defaulting to 0). -/
def gInsert (contents : String) : NoteRowG :=
  NoteRowG.mk contents none false false

/-- `db::update_note` (src/db.rs lines 79-85), with the ghost flag set. -/
def gUpdateNote (r : NoteRowG) (c : String) : NoteRowG :=
  { r with note := c, mutatedSinceSummary := true }

/-- `db::mark_summary_stale` (src/db.rs lines 127-133). -/
def gMarkStale (r : NoteRowG) : NoteRowG :=
  { r with summaryStale := true }

/-- `db::set_summary` (src/db.rs lines 119-125): store the text and clear the
stale flag (and the ghost flag: the stored summary now reflects the body). -/
def gSetSummary (r : NoteRowG) (s : String) : NoteRowG :=
  { r with summary := some s, summaryStale := false, mutatedSinceSummary := false }

/-- `db::get_summary` (src/db.rs lines 101-117): `None` unless a non-empty
summary is cached, otherwise the text together with the stale flag. -/
def rowGetSummary (r : NoteRowG) : Option (String × Bool) :=
  match r.summary with
  | some s => if s.data.isEmpty then none else some (s, r.summaryStale)
  | none => none

/-- The body-mutating operations of the repository as they act on a stored
row, each composed exactly as its caller composes the db calls:
`tuiOpen` is the interactive ':o' path `open_selected_note` (src/tui/events.rs
lines 417-431): on changed contents `update_note` then `mark_summary_stale`;
`appendC` is the `append` command (src/commands/append.rs lines 9-22);
`writeC` is the `write` command on an existing note (src/commands/write.rs
lines 14-21); `openC` is the one-shot `open` command (src/commands/open.rs
lines 11-23), which calls `update_note` on changed contents but never
`mark_summary_stale`; `summarizeOk` is a successful summarize storing the new
text via `set_summary` (src/tui/events.rs lines 474-476). -/
inductive RowStep : NoteRowG → NoteRowG → Prop
  | tuiOpen (r : NoteRowG) (c : String) :
      RowStep r (if c = r.note then r else gMarkStale (gUpdateNote r c))
  | appendC (r : NoteRowG) (txt : String) :
      RowStep r (gMarkStale (gUpdateNote r (r.note ++ "\n" ++ txt)))
  | writeC (r : NoteRowG) (txt : String) :
      RowStep r (gMarkStale (gUpdateNote r txt))
  | openC (r : NoteRowG) (c : String) :
      RowStep r (if c = r.note then r else gUpdateNote r c)
  | summarizeOk (r : NoteRowG) (s : String) :
      RowStep r (gSetSummary r s)

/-- Staleness only after a body write since the last summary store. -/
def rowInv (r : NoteRowG) : Prop :=
  r.summaryStale = true → r.mutatedSinceSummary = true

theorem rowInv_gInsert (c : String) : rowInv (gInsert c) := by
  intro h
  simp [gInsert] at h

theorem rowInv_step (r q : NoteRowG) (h : RowStep r q) (hr : rowInv r) : rowInv q := by
  cases h with
  | tuiOpen c =>
    by_cases hc : c = r.note
    · rw [if_pos hc]; exact hr
    · rw [if_neg hc]
      intro _
      rfl
  | appendC txt =>
    intro _
    rfl
  | writeC txt =>
    intro _
    rfl
  | openC c =>
    by_cases hc : c = r.note
    · rw [if_pos hc]; exact hr
    · rw [if_neg hc]
      intro _
      rfl
  | summarizeOk s =>
    intro hs
    simp [gSetSummary] at hs

theorem rowInv_reachable (c : String) (r : NoteRowG)
    (h : Relation.ReflTransGen RowStep (gInsert c) r) : rowInv r := by
  induction h with
  | refl => exact rowInv_gInsert c
  | tail hsteps hstep ih => exact rowInv_step _ _ hstep ih

/-- C10: in every row reachable from a fresh insert by the repository's
body-edit and summarize operations, `get_summary` reports staleness only for
a cached non-empty summary whose note body was written after that summary was
stored; and for any row with no cached summary `get_summary` reports
nothing. -/
theorem summary_staleness_observable (c : String) (r : NoteRowG)
    (h : Relation.ReflTransGen RowStep (gInsert c) r) :
    (∀ s, rowGetSummary r = some (s, true) →
        r.summary = some s ∧ s.data.isEmpty = false ∧ r.mutatedSinceSummary = true)
      ∧ (∀ r2 : NoteRowG, r2.summary = none → rowGetSummary r2 = none) := by
  constructor
  · intro s hs
    have hinv := rowInv_reachable c r h
    unfold rowGetSummary at hs
    cases hd : r.summary with
    | none => rw [hd] at hs; simp at hs
    | some s0 =>
      rw [hd] at hs
      dsimp only at hs
      by_cases he : s0.data.isEmpty = true
      · rw [if_pos he] at hs
        simp at hs
      · rw [if_neg he] at hs
        rw [Option.some.injEq, Prod.mk.injEq] at hs
        obtain ⟨hse, hst⟩ := hs
        refine ⟨?_, ?_, hinv hst⟩
        · rw [hse]
        · rw [← hse]
          simpa using he
  · intro r2 h2
    unfold rowGetSummary
    rw [h2]

/-- Witness for `summary_staleness_observable`: insert "a", summarize to "S",
then edit the body to "b" through the interactive open path; the reported
stale summary is the cached "S" and the body was indeed written after the
store. -/
theorem summary_staleness_observable_witness :
    (NoteRowG.mk "b" (some "S") true true).summary = some "S"
      ∧ ("S" : String).data.isEmpty = false
      ∧ (NoteRowG.mk "b" (some "S") true true).mutatedSinceSummary = true := by
  have h1 : RowStep (gInsert "a") (gSetSummary (gInsert "a") "S") :=
    RowStep.summarizeOk _ _
  have h2 : RowStep (gSetSummary (gInsert "a") "S")
      (gMarkStale (gUpdateNote (gSetSummary (gInsert "a") "S") "b")) := by
    have hstep := RowStep.tuiOpen (gSetSummary (gInsert "a") "S") "b"
    rw [if_neg (by decide)] at hstep
    exact hstep
  have hreach : Relation.ReflTransGen RowStep (gInsert "a")
      (NoteRowG.mk "b" (some "S") true true) := by
    have : gMarkStale (gUpdateNote (gSetSummary (gInsert "a") "S") "b")
        = NoteRowG.mk "b" (some "S") true true := by decide
    rw [← this]
    exact Relation.ReflTransGen.tail (Relation.ReflTransGen.single h1) h2
  exact (summary_staleness_observable "a" _ hreach).1 "S" (by decide)

/-! ## The one-shot open command and staleness (C3) -/

/-- A concrete row with a fresh cached summary. -/
def freshRow : NoteRowG := NoteRowG.mk "a" (some "S1") false false

/-- C3 evidence: the one-shot `open` command run on a note with a cached
summary and changed contents updates the body but leaves `summary_stale`
unset, while the interactive ':o' path, `append` and `write` all mark the
summary stale after every body write. -/
theorem open_cmd_missing_stale_mark :
    (RowStep freshRow (gUpdateNote freshRow "b")
        ∧ (gUpdateNote freshRow "b").note = "b"
        ∧ (gUpdateNote freshRow "b").note ≠ freshRow.note
        ∧ (gUpdateNote freshRow "b").summary = some "S1"
        ∧ (gUpdateNote freshRow "b").summaryStale = false)
      ∧ (∀ (r : NoteRowG) (c : String),
          ((if c = r.note then r else gUpdateNote r c) : NoteRowG).summaryStale
            = r.summaryStale)
      ∧ (∀ (r : NoteRowG) (c : String),
          ((if c = r.note then r else gMarkStale (gUpdateNote r c)) : NoteRowG).summaryStale
            = (if c = r.note then r.summaryStale else true))
      ∧ (∀ (r : NoteRowG) (txt : String),
          (gMarkStale (gUpdateNote r (r.note ++ "\n" ++ txt))).summaryStale = true)
      ∧ (∀ (r : NoteRowG) (txt : String),
          (gMarkStale (gUpdateNote r txt)).summaryStale = true) := by
  refine ⟨⟨?_, by decide, by decide, by decide, by decide⟩, ?_, ?_, ?_, ?_⟩
  · have hstep := RowStep.openC freshRow "b"
    rw [if_neg (by decide)] at hstep
    exact hstep
  · intro r c
    by_cases hc : c = r.note
    · rw [if_pos hc]
    · rw [if_neg hc]
      rfl
  · intro r c
    by_cases hc : c = r.note
    · rw [if_pos hc, if_pos hc]
    · rw [if_neg hc, if_neg hc]
      rfl
  · intro r txt
    rfl
  · intro r txt
    rfl

/-! ## The summarize protocol (C2) -/

/-- The summary-display fields of `App` (src/tui/mod.rs lines 66-69 plus the
status message): what `summarize_selected_note` reads and writes. -/
structure SumApp where
  showingSummary : Bool
  summaryContent : Option String
  summaryStale : Bool
  summaryForceRegen : Bool
  statusMessage : Option String
deriving Repr, DecidableEq

/-- The stored summary row of the selected note (src/db.rs columns `summary`
and `summary_stale`). -/
structure DbSum where
  summary : Option String
  summaryStale : Bool
deriving Repr, DecidableEq

/-- `db::get_summary` on the summary row (src/db.rs lines 101-117). -/
def dbGetSummary (d : DbSum) : Option (String × Bool) :=
  match d.summary with
  | some s => if s.data.isEmpty then none else some (s, d.summaryStale)
  | none => none

/-- `db::set_summary` (src/db.rs lines 119-125). -/
def dbSetSummary (s : String) : DbSum := DbSum.mk (some s) false

/-- The stale-summary warning message (src/tui/events.rs line 462). -/
def staleWarning : String := "Summary may be outdated. Press :s again to regenerate."

/-- The generate tail of `summarize_selected_note` (src/tui/events.rs lines
471-487): call the Summarizer and on success store and display the new text,
clearing the stale and force flags; on failure set an error message.  The
transient "Generating summary..." message is overwritten within the same
synchronous call and is not modelled.  The Bool records that the Summarizer
was called. -/
def summarizeGen (app : SumApp) (d : DbSum) (llm : Except String String) :
    SumApp × DbSum × Bool :=
  match llm with
  | Except.ok summary =>
    ({ app with
        showingSummary := true
        summaryContent := some summary
        summaryStale := false
        summaryForceRegen := false
        statusMessage := none },
      dbSetSummary summary, true)
  | Except.error e =>
    ({ app with statusMessage := some ("Summary error: " ++ e) }, d, true)

/-- The cache consultation of `summarize_selected_note` (src/tui/events.rs
lines 454-469) followed by the generate tail: with the force flag unset, a
cached summary is displayed (with the stale warning when stale) and no
Summarizer call happens; otherwise the generate tail runs. -/
def summarizeCore (app1 : SumApp) (d : DbSum) (llm : Except String String) :
    SumApp × DbSum × Bool :=
  if app1.summaryForceRegen = false then
    match dbGetSummary d with
    | some (cached, stale) =>
      ({ app1 with
          showingSummary := true
          summaryStale := stale
          summaryForceRegen := false
          summaryContent := some cached
          statusMessage := if stale then some staleWarning else none }, d, false)
    | none => summarizeGen app1 d llm
  else summarizeGen app1 d llm

/-- `summarize_selected_note` (src/tui/events.rs lines 440-488) for a
selected note: first the arming step (a second summarize on a shown stale
summary arms forced regeneration, lines 449-452), then the cache-or-generate
body. -/
def summarizeStep (app : SumApp) (d : DbSum) (llm : Except String String) :
    SumApp × DbSum × Bool :=
  summarizeCore
    (if app.showingSummary && app.summaryStale && !app.summaryForceRegen then
      { app with summaryForceRegen := true }
    else app) d llm

/-- The summary-display state right after a note is selected (everything
cleared by `clear_summary`). -/
def app0 : SumApp := SumApp.mk false none false false none

/-- The stored row of Scenario B: summary "S1" cached and stale. -/
def db0 : DbSum := DbSum.mk (some "S1") true

/-- The session state after the first summarize action of Scenario B. -/
def sumApp1 : SumApp := (summarizeStep app0 db0 (Except.ok "S2")).1

/-- The second summarize action of Scenario B, with the Summarizer
returning "S2". -/
def sumStep2 : SumApp × DbSum × Bool := summarizeStep sumApp1 db0 (Except.ok "S2")

/-- The summary-display effect of the '/' key in Normal mode followed by
Enter in Search mode (src/tui/events.rs lines 50-56 and 187-189): the query
is cleared, the filter reapplied, the selection reset to 0 and the status
message cleared — but, unlike the j/k movement and Tab focus paths (lines
42, 47, 68), `clear_summary` is never called, so every summary-display field
survives the selection change.  The Search-mode character and Backspace keys
(lines 190-199) likewise reset the selection without clearing the display. -/
def searchSelectApp (app : SumApp) : SumApp :=
  { app with statusMessage := none }

/-- The stored summary row of the note that the search path newly selects:
its summary "SB" is cached and fresh (CachedFresh). -/
def dbFreshB : DbSum := DbSum.mk (some "SB") false

/-- C2 evidence: the single-note Scenario B behaves exactly as the claim
states — the first summarize on the stale note displays "S1" with the stale
warning and no Summarizer call whatever the Summarizer would return, the
second calls the Summarizer, stores "S2" and clears the stale and force
flags, and a third displays "S2" with no warning and no call — but the
claim's final clause, that a CachedFresh summary is always displayed
immediately without a Summarizer call, fails in the program: pressing '/'
then Enter after the first summarize changes the selection without clearing
the summary-display state, so the leftover stale flags arm forced
regeneration on the next summarize, the cache consult is skipped, and the
Summarizer is called on the newly selected note even though its stored
summary "SB" is cached fresh — which is then overwritten. -/
theorem summarize_fresh_call_bug (llm1 llm3 : Except String String) :
    summarizeStep app0 db0 llm1
        = (SumApp.mk true (some "S1") true false (some staleWarning), db0, false)
      ∧ sumStep2 = (SumApp.mk true (some "S2") false false none,
          DbSum.mk (some "S2") false, true)
      ∧ summarizeStep sumStep2.1 sumStep2.2.1 llm3
          = (SumApp.mk true (some "S2") false false none, sumStep2.2.1, false)
      ∧ searchSelectApp sumApp1 = SumApp.mk true (some "S1") true false none
      ∧ dbGetSummary dbFreshB = some ("SB", false)
      ∧ (summarizeStep (searchSelectApp sumApp1) dbFreshB (Except.ok "S2")).2.2
          = true
      ∧ (summarizeStep (searchSelectApp sumApp1) dbFreshB (Except.ok "S2")).2.1
          = DbSum.mk (some "S2") false
      ∧ (summarizeStep (searchSelectApp sumApp1) dbFreshB
          (Except.ok "S2")).1.summaryForceRegen = false :=
  ⟨rfl, rfl, rfl, rfl, rfl, rfl, rfl, rfl⟩

end Scrap
